import Mathlib

/-!
Verification of the block-sync reconciliation engine (`block-sync.py`).

The source manipulates JSON-shaped records (`dict[str, dict]`) fetched from
remote servers.  We embed:

* a JSON scalar value (`JVal`: string or boolean, the two shapes the
  program's record fields take), with Python truthiness;
* records (`Rec`) and domain mappings (`DMap`) as association lists with
  Python-dict semantics (`recGet`/`recSet`, `mapGet`/`mapInsert`:
  lookup of the unique binding, in-place replacement on update, append on
  fresh insert);
* `merge` (block-sync.py lines 78-88): per-record validation, wildcard
  dropping, provenance stamping, last-write-wins insertion.  The Python
  `raise` aborts the rest of the batch while keeping earlier in-place
  insertions, so the embedding returns the partial mapping plus a success
  flag;
* `fetch` (lines 91-109) restricted to its merging loop: HTTP transport is
  an external collaborator, so the embedding receives the already-fetched
  per-site payloads and folds `merge` over them, continuing after a failed
  batch exactly as the `except ... continue` does;
* `compare` (lines 112-138): the diff computation with allow-list skipping
  and the symmetric `str.endswith` coverage test;
* `dump_csv` (lines 183-204): sorting by domain key (Python `sorted` is a
  stable ascending sort, embedded as insertion sort), allow-list filtering,
  Python-`or` field defaulting, quote escaping (`re.sub("([\"'])", ...)`),
  and the `",".join(row)` step, which raises `TypeError` when a row cell is
  not a string — embedded in `Except`.

Python string operations are embedded on `String.data` (code-point lists):
`endswith` is list-suffix, `"*" in s` is character membership, and string
ordering is lexicographic comparison of code points.
-/

namespace BlockSync

/-- A JSON scalar stored in a record field: a string or a boolean. -/
inductive JVal
| s (v : String)
| b (v : Bool)
deriving DecidableEq, Repr

/-- Python truthiness of a field value: a string is truthy iff non-empty,
a boolean is truthy iff `true`. -/
def JVal.truthy : JVal → Bool
| .s v => !(v == "")
| .b v => v

/-- A raw record (`dict` in the source): an association list of fields. -/
abbrev Rec := List (String × JVal)

/-- A domain mapping (`dict[str, dict]` in the source). -/
abbrev DMap := List (String × Rec)

/-- Python `item.get(k)`: the value of the first (unique) binding of `k`. -/
def recGet (r : Rec) (k : String) : Option JVal :=
  (r.find? (fun p => p.1 == k)).map Prod.snd

/-- Python `item[k] = v`: replace the binding in place if the key exists,
otherwise append it. -/
def recSet (r : Rec) (k : String) (v : JVal) : Rec :=
  if r.any (fun p => p.1 == k) then
    r.map (fun p => if p.1 == k then (k, v) else p)
  else r ++ [(k, v)]

/-- Python `m.get(k)` / `m[k]` on a domain mapping. -/
def mapGet (m : DMap) (k : String) : Option Rec :=
  (m.find? (fun p => p.1 == k)).map Prod.snd

/-- Python `m[k] = v` on a domain mapping: replace in place or append. -/
def mapInsert (m : DMap) (k : String) (v : Rec) : DMap :=
  if m.any (fun p => p.1 == k) then
    m.map (fun p => if p.1 == k then (k, v) else p)
  else m ++ [(k, v)]

/-- The keys of a domain mapping, in iteration order. -/
def mapKeys (m : DMap) : List String := m.map Prod.fst

/-- Truthiness of `item.get(k)`: `None` (absent) is falsy. -/
def truthyO : Option JVal → Bool
| some v => v.truthy
| none => false

/-- Lines 85-86 of `merge`: `if origin: item["private_comment"] = f"from: {origin}"`.
The assignment happens whenever `origin` is truthy (non-empty), overwriting
any private comment already present on the record. -/
def stamp (origin : String) (item : Rec) : Rec :=
  if origin == "" then item
  else recSet item "private_comment" (.s ("from: " ++ origin))

/-- Lines 78-88, `merge(old, data, origin)`.  For each record: raise if
`domain` or `severity` is missing/falsy; skip records whose domain contains
`*`; stamp provenance; insert last-write-wins.  A raise leaves the
insertions already made (the Python dict is mutated in place) and abandons
the rest of the batch, so the embedding returns the mapping together with
`true` for a completed batch and `false` for an aborted one.  A non-string
truthy domain would also raise (at the `"*" in domain` test), which lands
in the same aborted case. -/
def merge (old : DMap) (data : List Rec) (origin : String) : DMap × Bool :=
  match data with
  | [] => (old, true)
  | item :: rest =>
    if !(truthyO (recGet item "domain") && truthyO (recGet item "severity")) then
      (old, false)
    else
      match recGet item "domain" with
      | some (.s d) =>
        if d.data.contains (Char.ofNat 42) then merge old rest origin
        else merge (mapInsert old d (stamp origin item)) rest origin
      | _ => (old, false)

/-- The merging loop of `fetch` (lines 93-109): fold each already-fetched
site payload into the accumulated mapping; a merge exception is caught and
the loop continues with the next site, keeping the partially-merged map. -/
def fetchLoop (result : DMap) : List (String × List Rec) → DMap
| [] => result
| (site, data) :: rest => fetchLoop (merge result data site).1 rest

/-- Lines 91-109, `fetch(sites)`, with the HTTP transport factored out:
the argument carries, per site, the JSON payload the site answered with
(sites answering non-200 simply do not appear). -/
def fetch (sites : List (String × List Rec)) : DMap :=
  fetchLoop [] sites

/-- Python `s.endswith(t)`: `t`'s code points are a suffix of `s`'s. -/
def pyEndswith (s t : String) : Bool :=
  t.data.isSuffixOf s.data

/-- The loop of `compare` (lines 122-135) with its accumulator `missing`. -/
def compareLoop (mine : DMap) (allow : List String) (missing : DMap) :
    List (String × Rec) → DMap
| [] => missing
| (key, val) :: rest =>
  if allow.contains key then compareLoop mine allow missing rest
  else if (mapKeys mine).any (fun mkey => pyEndswith key mkey || pyEndswith mkey key) then
    compareLoop mine allow missing rest
  else compareLoop mine allow (mapInsert missing key val) rest

/-- Lines 112-138, `compare(mine, theirs, allow)`: the keys of `theirs`
not in `allow` and not covered by any key of `mine` under the symmetric
`endswith` test, each mapped to its `theirs` entry. -/
def compare (mine theirs : DMap) (allow : List String) : DMap :=
  compareLoop mine allow [] theirs

/-- Lexicographic (code-point) comparison of character lists: the order
Python uses to compare strings in `sorted`. -/
def lexLe : List Char → List Char → Bool
| [], _ => true
| _ :: _, [] => false
| a :: as, b :: bs =>
  if a.toNat < b.toNat then true
  else if b.toNat < a.toNat then false
  else lexLe as bs

/-- Python string ordering, as a proposition. -/
def strLe (a b : String) : Prop := lexLe a.data b.data = true

/-- Ordering of mapping items by their domain key (the `key=lambda t: t[0]`
of line 191). -/
def keyLe (a b : String × Rec) : Prop := strLe a.1 b.1

instance : DecidableRel strLe :=
  fun a b => inferInstanceAs (Decidable (lexLe a.data b.data = true))

instance : DecidableRel keyLe :=
  fun a b => inferInstanceAs (Decidable (strLe a.1 b.1))

/-- Line 191, `sorted(sites_data.items(), key=lambda t: t[0])`: a stable
ascending sort of the items by domain key. -/
def sortItems (m : DMap) : DMap := List.insertionSort keyLe m

/-- Python `x or y` over an optional field value: the field's value if
present and truthy, otherwise the default. -/
def pyOr (x : Option JVal) (d : JVal) : JVal :=
  match x with
  | some v => if v.truthy then v else d
  | none => d

/-- One cell of `",".join(row)`: joining demands a string; a boolean cell
raises `TypeError`. -/
def cellString : JVal → Except String String
| .s v => .ok v
| .b _ => .error "TypeError: sequence item: expected str instance, bool found"

/-- Line 201's `re.sub("([\"'])", r"\\\1", s)`: put a backslash before
every double or single quote. -/
def escapeQuotes (s : String) : String :=
  String.mk (s.data.foldr
    (fun c acc =>
      if c == Char.ofNat 34 || c == Char.ofNat 39 then Char.ofNat 92 :: c :: acc
      else c :: acc)
    [])

/-- Join the row cells, failing on the first non-string cell as
`",".join(row)` does. -/
def joinCells : List JVal → Except String (List String)
| [] => .ok []
| c :: rest => do
  let sc ← cellString c
  let srest ← joinCells rest
  pure (sc :: srest)

/-- Line 195's `severity = data.get("severity") or "silence"` followed by
`"{}".format(severity == "suspend").lower()`: the derived lowercase flag
used as the default for `reject_media` and `reject_report`. -/
def flagOf (data : Rec) : String :=
  if pyOr (recGet data "severity") (.s "silence") = .s "suspend" then "true" else "false"

/-- Lines 195-204: build one CSV row for `(site, data)`.  Each `or`
defaults a falsy/absent field; `reject_media`/`reject_report` default to
`str(severity == "suspend").lower()`; the comment is quote-escaped and
wrapped in double quotes (`re.sub` raises on a truthy non-string comment);
`obfuscate` is the literal `"false"`.  The join fails on non-string cells. -/
def buildRow (site : String) (data : Rec) : Except String (List String) :=
  match pyOr (recGet data "comment") (.s "") with
  | .b _ => .error "TypeError: expected string or bytes-like object"
  | .s c =>
    joinCells
      [ .s site,
        pyOr (recGet data "severity") (.s "silence"),
        pyOr (recGet data "reject_media") (.s (flagOf data)),
        pyOr (recGet data "reject_report") (.s (flagOf data)),
        .s ("\"" ++ escapeQuotes c ++ "\""),
        .s "false" ]

/-- The per-row loop of `dump_csv` (lines 191-204): skip allow-listed
domains, otherwise emit the built row; a row failure propagates. -/
def dumpLoop (allow : List String) : List (String × Rec) → Except String (List (List String))
| [] => .ok []
| (site, data) :: rest =>
  if allow.contains site then dumpLoop allow rest
  else do
    let row ← buildRow site data
    let rows ← dumpLoop allow rest
    pure (row :: rows)

/-- Lines 183-204, `dump_csv(f, sites_data, allow)`: the data rows written
after the fixed header, in sorted order, as lists of cells. -/
def dump_csv (sites_data : DMap) (allow : List String) : Except String (List (List String)) :=
  dumpLoop allow (sortItems sites_data)

/-- Line 189's fixed header line. -/
def headerRow : String :=
  "#domain,#severity,#reject_media,#reject_reports,#public_comment,#obfuscate"

/-- The full byte stream `dump_csv` writes on success: header then one
comma-joined line per row. -/
def renderCsv (sites_data : DMap) (allow : List String) : Except String String :=
  (dump_csv sites_data allow).map (fun rows =>
    headerRow ++ "\n" ++ String.join (rows.map (fun r => String.intercalate "," r ++ "\n")))

/-- A record passing `merge`'s integrity check with a string domain:
`domain` is a non-empty string and `severity` is truthy. -/
def recOkB (item : Rec) : Bool :=
  (match recGet item "domain" with
   | some (JVal.s d) => !(d == "")
   | _ => false) && truthyO (recGet item "severity")

/-- All records of all sources, in source-then-record order, each tagged
with its site. -/
def allRecords (sites : List (String × List Rec)) : List (String × Rec) :=
  sites.flatMap (fun p => p.2.map (fun r => (p.1, r)))

/-- The last record (with its site) whose `domain` field is the string `d`,
in source-then-record order. -/
def lastFor (d : String) (sites : List (String × List Rec)) : Option (String × Rec) :=
  ((allRecords sites).filter
    (fun p => decide (recGet p.2 "domain" = some (JVal.s d)))).getLast?

/-! ### Basic lemmas about the dictionary embedding -/

theorem find?_map_replace (k : String) (v : Rec) (t : DMap)
    (h : t.any (fun p => p.1 == k) = true) :
    (t.map (fun p => if p.1 == k then (k, v) else p)).find? (fun p => p.1 == k)
      = some (k, v) := by
  induction t with
  | nil => simp at h
  | cons p t ih =>
    by_cases hp : p.1 = k
    · simp [hp]
    · have h' : t.any (fun p => p.1 == k) = true := by simpa [hp] using h
      simpa [hp] using ih h'

theorem find?_map_replace_ne (k k' : String) (v : Rec) (t : DMap) (hne : k' ≠ k) :
    (t.map (fun p => if p.1 == k then (k, v) else p)).find? (fun p => p.1 == k')
      = t.find? (fun p => p.1 == k') := by
  induction t with
  | nil => rfl
  | cons p t ih =>
    by_cases hp : p.1 = k
    · have hpn : ¬ p.1 = k' := by rw [hp]; exact Ne.symm hne
      simpa [hp, Ne.symm hne, hpn] using ih
    · by_cases hq : p.1 = k'
      · rw [List.map_cons, if_neg (by simp [hp]),
          List.find?_cons_of_pos _ (by simp [hq]), List.find?_cons_of_pos _ (by simp [hq])]
      · simpa [hp, hq] using ih

theorem mapGet_insert_self (m : DMap) (k : String) (v : Rec) :
    mapGet (mapInsert m k v) k = some v := by
  rw [mapInsert, mapGet]
  by_cases ha : m.any (fun p => p.1 == k) = true
  · rw [if_pos ha, find?_map_replace k v m ha]
    rfl
  · have hfalse : m.any (fun p => p.1 == k) = false := Bool.eq_false_iff.mpr ha
    have hnone : m.find? (fun p => p.1 == k) = none := by
      rw [List.find?_eq_none]
      intro p hp
      exact List.any_eq_false.mp hfalse p hp
  -- the key is absent, so the fresh binding appended at the end is found
    rw [if_neg ha, List.find?_append, hnone]
    simp

theorem mapGet_insert_ne (m : DMap) (k k' : String) (v : Rec) (h : k' ≠ k) :
    mapGet (mapInsert m k v) k' = mapGet m k' := by
  rw [mapInsert, mapGet, mapGet]
  by_cases ha : m.any (fun p => p.1 == k) = true
  · rw [if_pos ha, find?_map_replace_ne k k' v m h]
  · rw [if_neg ha, List.find?_append]
    have hlast : List.find? (fun p => p.1 == k') [(k, v)] = none := by
      simp [Ne.symm h]
    rw [hlast, Option.or_none]

/-! ### Lemmas about `compare` -/

theorem compareLoop_get_blocked (mine : DMap) (allow : List String) (k : String)
    (hb : allow.contains k = true ∨
      (mapKeys mine).any (fun mkey => pyEndswith k mkey || pyEndswith mkey k) = true) :
    ∀ (rest : List (String × Rec)) (missing : DMap),
      mapGet (compareLoop mine allow missing rest) k = mapGet missing k := by
  intro rest
  induction rest with
  | nil => intro missing; rfl
  | cons p rest ih =>
    intro missing
    obtain ⟨key, val⟩ := p
    simp only [compareLoop]
    by_cases h1 : allow.contains key = true
    · rw [if_pos h1]
      exact ih missing
    · rw [if_neg h1]
      by_cases h2 :
          (mapKeys mine).any (fun mkey => pyEndswith key mkey || pyEndswith mkey key) = true
      · rw [if_pos h2]
        exact ih missing
      · rw [if_neg h2]
        have hne : k ≠ key := by
          intro hkk
          rcases hb with h | h
          · exact h1 (hkk ▸ h)
          · exact h2 (hkk ▸ h)
        rw [ih (mapInsert missing key val), mapGet_insert_ne missing key k val hne]

/-! ### Lemmas about `merge` and `fetch` -/

theorem recOkB_elim (r : Rec) (h : recOkB r = true) :
    ∃ d, recGet r "domain" = some (JVal.s d) ∧ (d == "") = false ∧
      truthyO (recGet r "severity") = true := by
  unfold recOkB at h
  cases hdom : recGet r "domain" with
  | none => rw [hdom] at h; simp at h
  | some v =>
    cases v with
    | s d =>
      rw [hdom] at h
      simp only [Bool.and_eq_true, Bool.not_eq_true'] at h
      exact ⟨d, rfl, h.1, h.2⟩
    | b bv => rw [hdom] at h; simp at h

theorem merge_append_bad (site : String) (good : List Rec) (bad : Rec) (rest : List Rec)
    (hg : ∀ r ∈ good, recOkB r = true)
    (hb : truthyO (recGet bad "domain") = false ∨ truthyO (recGet bad "severity") = false) :
    ∀ start : DMap, merge start (good ++ bad :: rest) site = ((merge start good site).1, false) := by
  induction good with
  | nil =>
    intro start
    rcases hb with h | h <;> simp [merge, h]
  | cons g gs ih =>
    intro start
    have hgok := hg g (List.mem_cons_self g gs)
    obtain ⟨d, hdom, hdne, hsev⟩ := recOkB_elim g hgok
    have hgs : ∀ r ∈ gs, recOkB r = true := fun r hr => hg r (List.mem_cons_of_mem g hr)
    have ih' := ih hgs
    have hcond : (!(truthyO (recGet g "domain") && truthyO (recGet g "severity"))) = false := by
      rw [hdom, hsev]
      simp [truthyO, JVal.truthy, hdne]
    simp only [List.cons_append, merge, hcond, Bool.false_eq_true, if_false, hdom]
    have hsev2 : ∃ sv, recGet g "severity" = some sv ∧ sv.truthy = true := by
      cases hsv : recGet g "severity" with
      | none => rw [hsv] at hsev; exact absurd hsev (by simp [truthyO])
      | some sv => exact ⟨sv, rfl, by rw [hsv] at hsev; exact hsev⟩
    obtain ⟨sv, hsv, hsvt⟩ := hsev2
    cases hw : d.data.contains (Char.ofNat 42) with
    | true =>
      cases sv with
      | s svv =>
        have hne2 : ¬ svv = "" := by simpa [JVal.truthy] using hsvt
        simpa [hw, hsv, hne2, truthyO, JVal.truthy, hdne] using ih' start
      | b svv =>
        have hb2 : svv = true := by simpa [JVal.truthy] using hsvt
        subst hb2
        simpa [hw, hsv, truthyO, JVal.truthy, hdne] using ih' start
    | false =>
      cases sv with
      | s svv =>
        have hne2 : ¬ svv = "" := by simpa [JVal.truthy] using hsvt
        simpa [hw, hsv, hne2, truthyO, JVal.truthy, hdne] using
          ih' (mapInsert start d (stamp site g))
      | b svv =>
        have hb2 : svv = true := by simpa [JVal.truthy] using hsvt
        subst hb2
        simpa [hw, hsv, truthyO, JVal.truthy, hdne] using
          ih' (mapInsert start d (stamp site g))

theorem truthyO_elim (x : Option JVal) (h : truthyO x = true) :
    ∃ sv, x = some sv ∧ sv.truthy = true := by
  cases x with
  | none => simp [truthyO] at h
  | some sv => exact ⟨sv, rfl, h⟩

theorem merge_cons_ok (old : DMap) (item : Rec) (rest : List Rec) (origin : String)
    (d : String) (hdom : recGet item "domain" = some (JVal.s d)) (hdne : (d == "") = false)
    (hsev : truthyO (recGet item "severity") = true) :
    merge old (item :: rest) origin =
      if d.data.contains (Char.ofNat 42) then merge old rest origin
      else merge (mapInsert old d (stamp origin item)) rest origin := by
  obtain ⟨sv, hsv, hsvt⟩ := truthyO_elim _ hsev
  cases sv with
  | s svv =>
    have hne2 : ¬ svv = "" := by simpa [JVal.truthy] using hsvt
    simp [merge, hdom, hsv, truthyO, JVal.truthy, hdne, hne2]
  | b svv =>
    have hb2 : svv = true := by simpa [JVal.truthy] using hsvt
    subst hb2
    simp [merge, hdom, hsv, truthyO, JVal.truthy, hdne]

theorem merge_get (d : String) (origin : String)
    (hd : d.data.contains (Char.ofNat 42) = false) :
    ∀ (data : List Rec) (acc : DMap), (∀ r ∈ data, recOkB r = true) →
      mapGet (merge acc data origin).1 d
        = ((data.filter (fun r => decide (recGet r "domain" = some (JVal.s d)))).getLast?).elim
            (mapGet acc d) (fun r => some (stamp origin r)) := by
  intro data
  induction data with
  | nil => intro acc h; rfl
  | cons item rest ih =>
    intro acc h
    have hok := h item (List.mem_cons_self item rest)
    obtain ⟨d0, hdom, hdne, hsev⟩ := recOkB_elim item hok
    have hrest : ∀ r ∈ rest, recOkB r = true := fun r hr => h r (List.mem_cons_of_mem item hr)
    rw [merge_cons_ok acc item rest origin d0 hdom hdne hsev]
    by_cases hw : d0.data.contains (Char.ofNat 42) = true
    · have hne : ¬ d0 = d := by
        intro he
        rw [he, hd] at hw
        exact absurd hw (by decide)
      rw [if_pos hw, ih acc hrest,
        List.filter_cons_of_neg (by simp [hdom, hne])]
    · rw [if_neg hw, ih (mapInsert acc d0 (stamp origin item)) hrest]
      by_cases hdd : d0 = d
      · subst hdd
        rw [List.filter_cons_of_pos (by simp [hdom])]
        cases hlast :
            (rest.filter (fun r => decide (recGet r "domain" = some (JVal.s d0)))).getLast? with
        | none =>
          rw [List.getLast?_cons, hlast]
          simp [mapGet_insert_self]
        | some r =>
          rw [List.getLast?_cons, hlast]
          simp
      · rw [List.filter_cons_of_neg (by simp [hdom, hdd]),
          mapGet_insert_ne acc d0 d (stamp origin item) (fun he => hdd he.symm)]

theorem fetchLoop_get (d : String) (hd : d.data.contains (Char.ofNat 42) = false) :
    ∀ (sites : List (String × List Rec)) (acc : DMap),
      (∀ p ∈ sites, ∀ r ∈ p.2, recOkB r = true) →
      mapGet (fetchLoop acc sites) d
        = (lastFor d sites).elim (mapGet acc d) (fun p => some (stamp p.1 p.2)) := by
  intro sites
  induction sites with
  | nil => intro acc h; rfl
  | cons p sites ih =>
    intro acc h
    obtain ⟨site, data⟩ := p
    have hdata : ∀ r ∈ data, recOkB r = true :=
      fun r hr => h (site, data) (List.mem_cons_self _ _) r hr
    have hsites : ∀ q ∈ sites, ∀ r ∈ q.2, recOkB r = true :=
      fun q hq => h q (List.mem_cons_of_mem _ hq)
    have hsplit : lastFor d ((site, data) :: sites)
        = (lastFor d sites).or
            (((data.filter (fun r => decide (recGet r "domain" = some (JVal.s d)))).getLast?).map
              (fun r => (site, r))) := by
      unfold lastFor allRecords
      rw [List.flatMap_cons, List.filter_append, List.getLast?_append, List.filter_map]
      rw [List.getLast?_map]
      rfl
    show mapGet (fetchLoop (merge acc data site).1 sites) d = _
    rw [ih (merge acc data site).1 hsites, hsplit]
    cases hlf : lastFor d sites with
    | some q => simp [Option.or]
    | none =>
      rw [Option.none_or, merge_get d site hd data acc hdata]
      cases hml :
          (data.filter (fun r => decide (recGet r "domain" = some (JVal.s d)))).getLast? with
      | none => simp
      | some r => simp

theorem mapKeys_insert (m : DMap) (k : String) (v : Rec) :
    mapKeys (mapInsert m k v) = mapKeys m ∨ mapKeys (mapInsert m k v) = mapKeys m ++ [k] := by
  rw [mapInsert]
  by_cases ha : m.any (fun p => p.1 == k) = true
  · left
    rw [if_pos ha, mapKeys, mapKeys, List.map_map]
    apply List.map_congr_left
    intro p hp
    by_cases hpk : p.1 = k
    · simp [hpk]
    · simp [hpk]
  · right
    rw [if_neg ha, mapKeys, mapKeys, List.map_append]
    rfl

theorem merge_keys_star_free (origin : String) :
    ∀ (data : List Rec) (old : DMap),
      (∀ kk ∈ mapKeys old, kk.data.contains (Char.ofNat 42) = false) →
      ∀ kk ∈ mapKeys (merge old data origin).1, kk.data.contains (Char.ofNat 42) = false := by
  intro data
  induction data with
  | nil => intro old h; exact h
  | cons item rest ih =>
    intro old h
    simp only [merge]
    split
    · exact h
    · split
      · rename_i d hdom
        split
        · exact ih old h
        · rename_i hw
          have hwf : d.data.contains (Char.ofNat 42) = false := Bool.eq_false_iff.mpr hw
          apply ih (mapInsert old d (stamp origin item))
          intro kk hkk
          rcases mapKeys_insert old d (stamp origin item) with he | he
          · rw [he] at hkk; exact h kk hkk
          · rw [he] at hkk
            rcases List.mem_append.mp hkk with hk1 | hk2
            · exact h kk hk1
            · have hkd : kk = d := by simpa using hk2
              rw [hkd]; exact hwf
      all_goals exact h

theorem fetchLoop_keys_star_free :
    ∀ (sites : List (String × List Rec)) (acc : DMap),
      (∀ kk ∈ mapKeys acc, kk.data.contains (Char.ofNat 42) = false) →
      ∀ kk ∈ mapKeys (fetchLoop acc sites), kk.data.contains (Char.ofNat 42) = false := by
  intro sites
  induction sites with
  | nil => intro acc h; exact h
  | cons p sites ih =>
    intro acc h
    obtain ⟨site, data⟩ := p
    exact ih (merge acc data site).1 (merge_keys_star_free site data acc h)

/-! ### The lexical string order used by the serializer -/

theorem lexLe_total : ∀ x y : List Char, lexLe x y = true ∨ lexLe y x = true := by
  intro x
  induction x with
  | nil => intro y; left; rfl
  | cons a as ih =>
    intro y
    cases y with
    | nil => right; rfl
    | cons b bs =>
      rcases Nat.lt_trichotomy a.toNat b.toNat with hlt | heq | hgt
      · left; simp [lexLe, hlt]
      · rcases ih bs with h | h
        · left; simp [lexLe, heq, h]
        · right; simp [lexLe, heq.symm, h]
      · right; simp [lexLe, hgt]

theorem lexLe_trans :
    ∀ x y z : List Char, lexLe x y = true → lexLe y z = true → lexLe x z = true := by
  intro x
  induction x with
  | nil => intro y z h1 h2; rfl
  | cons a as ih =>
    intro y z h1 h2
    cases y with
    | nil => simp [lexLe] at h1
    | cons b bs =>
      cases z with
      | nil => simp [lexLe] at h2
      | cons c cs =>
        simp only [lexLe] at h1 h2 ⊢
        by_cases hab : a.toNat < b.toNat
        · by_cases hbc : b.toNat < c.toNat
          · simp [Nat.lt_trans hab hbc]
          · by_cases hcb : c.toNat < b.toNat
            · simp [hbc, hcb] at h2
            · have hbc2 : b.toNat = c.toNat := Nat.le_antisymm (Nat.le_of_not_lt hcb) (Nat.le_of_not_lt hbc)
              simp [hbc2 ▸ hab]
        · by_cases hba : b.toNat < a.toNat
          · simp [hab, hba] at h1
          · have hab2 : a.toNat = b.toNat := Nat.le_antisymm (Nat.le_of_not_lt hba) (Nat.le_of_not_lt hab)
            rw [if_neg hab, if_neg hba] at h1
            by_cases hbc : b.toNat < c.toNat
            · simp [hab2 ▸ hbc]
            · by_cases hcb : c.toNat < b.toNat
              · simp [hbc, hcb] at h2
              · have hbc2 : b.toNat = c.toNat := Nat.le_antisymm (Nat.le_of_not_lt hcb) (Nat.le_of_not_lt hbc)
                rw [if_neg hbc, if_neg hcb] at h2
                have hac : ¬ a.toNat < c.toNat := by rw [hab2, hbc2]; exact Nat.lt_irrefl _
                have hca : ¬ c.toNat < a.toNat := by rw [hab2, hbc2]; exact Nat.lt_irrefl _
                rw [if_neg hac, if_neg hca]
                exact ih bs cs h1 h2

/-! ### Lemmas about the serializer -/

theorem buildRow_ok (site : String) (data : Rec) (row : List String)
    (h : buildRow site data = Except.ok row) :
    ∃ v1 v2 v3 c,
      pyOr (recGet data "severity") (JVal.s "silence") = JVal.s v1 ∧
      pyOr (recGet data "reject_media") (JVal.s (flagOf data)) = JVal.s v2 ∧
      pyOr (recGet data "reject_report") (JVal.s (flagOf data)) = JVal.s v3 ∧
      pyOr (recGet data "comment") (JVal.s "") = JVal.s c ∧
      row = [site, v1, v2, v3, "\"" ++ escapeQuotes c ++ "\"", "false"] := by
  unfold buildRow at h
  cases hc : pyOr (recGet data "comment") (JVal.s "") with
  | b bv => rw [hc] at h; exact absurd h (by simp)
  | s c =>
    rw [hc] at h
    cases h1 : pyOr (recGet data "severity") (JVal.s "silence") with
    | b bv =>
      rw [h1] at h
      simp [joinCells, cellString, Bind.bind, Except.bind] at h
    | s v1 =>
      rw [h1] at h
      cases h2 : pyOr (recGet data "reject_media") (JVal.s (flagOf data)) with
      | b bv =>
        rw [h2] at h
        simp [joinCells, cellString, Bind.bind, Except.bind] at h
      | s v2 =>
        rw [h2] at h
        cases h3 : pyOr (recGet data "reject_report") (JVal.s (flagOf data)) with
        | b bv =>
          rw [h3] at h
          simp [joinCells, cellString, Bind.bind, Except.bind] at h
        | s v3 =>
          rw [h3] at h
          have hrow : [site, v1, v2, v3, "\"" ++ escapeQuotes c ++ "\"", "false"] = row := by
            simpa [joinCells, cellString, Bind.bind, Except.bind, Pure.pure, Except.pure] using h
          exact ⟨v1, v2, v3, c, rfl, rfl, rfl, rfl, hrow.symm⟩

theorem buildRow_head (site : String) (data : Rec) (row : List String)
    (h : buildRow site data = Except.ok row) : row.headD "" = site := by
  obtain ⟨v1, v2, v3, c, _, _, _, _, hrow⟩ := buildRow_ok site data row h
  rw [hrow]
  rfl

theorem dumpLoop_ok_heads :
    ∀ (allow : List String) (items : List (String × Rec)) (rows : List (List String)),
      dumpLoop allow items = Except.ok rows →
      rows.map (fun r => r.headD "") =
        (items.filter (fun p => !(allow.contains p.1))).map Prod.fst := by
  intro allow items
  induction items with
  | nil =>
    intro rows h
    have hr : rows = [] := by simpa [dumpLoop] using h.symm
    rw [hr]
    rfl
  | cons p rest ih =>
    intro rows h
    obtain ⟨site, data⟩ := p
    simp only [dumpLoop] at h
    by_cases hal : allow.contains site = true
    · rw [if_pos hal] at h
      rw [List.filter_cons_of_neg (by simpa using hal)]
      exact ih rows h
    · rw [if_neg hal] at h
      cases hb : buildRow site data with
      | error e => rw [hb] at h; simp [Bind.bind, Except.bind] at h
      | ok row =>
        rw [hb] at h
        cases hd : dumpLoop allow rest with
        | error e => rw [hd] at h; simp [Bind.bind, Except.bind] at h
        | ok rows2 =>
          rw [hd] at h
          have hr : rows = row :: rows2 := by
            simpa [Bind.bind, Except.bind, Pure.pure, Except.pure] using h.symm
          rw [hr, List.filter_cons_of_pos (by simpa using hal), List.map_cons, List.map_cons,
            buildRow_head site data row hb, ih rows2 hd]

theorem dumpLoop_ok_mem :
    ∀ (allow : List String) (items : List (String × Rec)) (rows : List (List String)),
      dumpLoop allow items = Except.ok rows →
      ∀ r ∈ rows, ∃ site data, (site, data) ∈ items ∧ allow.contains site = false ∧
        buildRow site data = Except.ok r := by
  intro allow items
  induction items with
  | nil =>
    intro rows h r hr
    have hrows : rows = [] := by simpa [dumpLoop] using h.symm
    rw [hrows] at hr
    simp at hr
  | cons p rest ih =>
    intro rows h r hr
    obtain ⟨site, data⟩ := p
    simp only [dumpLoop] at h
    by_cases hal : allow.contains site = true
    · rw [if_pos hal] at h
      obtain ⟨s2, d2, hmem, hs2, hb2⟩ := ih rows h r hr
      exact ⟨s2, d2, List.mem_cons_of_mem _ hmem, hs2, hb2⟩
    · rw [if_neg hal] at h
      cases hb : buildRow site data with
      | error e => rw [hb] at h; simp [Bind.bind, Except.bind] at h
      | ok row =>
        rw [hb] at h
        cases hd : dumpLoop allow rest with
        | error e => rw [hd] at h; simp [Bind.bind, Except.bind] at h
        | ok rows2 =>
          rw [hd] at h
          have hrows : rows = row :: rows2 := by
            simpa [Bind.bind, Except.bind, Pure.pure, Except.pure] using h.symm
          rw [hrows] at hr
          rcases List.mem_cons.mp hr with hre | hre
          · exact ⟨site, data, List.mem_cons_self _ _, Bool.eq_false_iff.mpr hal, hre ▸ hb⟩
          · obtain ⟨s2, d2, hmem, hs2, hb2⟩ := ih rows2 hd r hre
            exact ⟨s2, d2, List.mem_cons_of_mem _ hmem, hs2, hb2⟩

theorem sortItems_sorted (m : DMap) : List.Sorted keyLe (sortItems m) := by
  haveI : IsTotal (String × Rec) keyLe := ⟨fun a b => lexLe_total a.1.data b.1.data⟩
  haveI : IsTrans (String × Rec) keyLe := ⟨fun a b c => lexLe_trans a.1.data b.1.data c.1.data⟩
  exact List.sorted_insertionSort keyLe m

theorem sortItems_mem (m : DMap) (p : String × Rec) (h : p ∈ sortItems m) : p ∈ m :=
  (List.perm_insertionSort keyLe m).mem_iff.mp h

/-! ### Claim theorems -/

/-- C1 counterexample: with local mapping containing `example.com`, remote
mapping containing `notexample.com` and an empty allow-list, the diff is
empty — `notexample.com` does NOT appear in it, contrary to the claim,
because the plain ends-with test does match `notexample.com` against
`example.com` (the latter is a literal, dot-less suffix of the former). -/
theorem c1_counterexample :
    compare [("example.com", [("severity", JVal.s "suspend")])]
      [("notexample.com", [("severity", JVal.s "suspend")])] [] = [] := by
  rfl

/-- C1 (amended): whenever the local mapping contains the key
`example.com`, the ends-with suffix rule treats `notexample.com` as already
covered (it is a plain string suffix match, not anchored at a label
boundary), so `notexample.com` never appears in the diff produced with an
empty allow-list. -/
theorem c1_amended_notexample_covered (mine theirs : DMap)
    (h : "example.com" ∈ mapKeys mine) :
    mapGet (compare mine theirs []) "notexample.com" = none := by
  have hany : (mapKeys mine).any
      (fun mkey => pyEndswith "notexample.com" mkey || pyEndswith mkey "notexample.com")
        = true := by
    rw [List.any_eq_true]
    exact ⟨"example.com", h, by decide⟩
  have hb := compareLoop_get_blocked mine [] "notexample.com" (Or.inr hany) theirs []
  exact hb

/-- C1 witness: the amended theorem applied to the one-entry mappings. -/
theorem c1_witness :
    mapGet (compare [("example.com", [])] [("notexample.com", [])] []) "notexample.com"
      = none :=
  c1_amended_notexample_covered [("example.com", [])] [("notexample.com", [])] (by decide)

/-- C2 counterexample: a source whose second record lacks `severity` still
contributes its first record to the aggregated mapping — the contribution
is not abandoned wholesale as the claim states. -/
theorem c2_counterexample :
    mapGet (fetch [("s1",
      [[("domain", JVal.s "a.com"), ("severity", JVal.s "suspend")],
       [("domain", JVal.s "b.com")]])]) "a.com"
      = some [("domain", JVal.s "a.com"), ("severity", JVal.s "suspend"),
              ("private_comment", JVal.s "from: s1")] := by
  rfl

/-- C2 (amended): when a record lacking a truthy `domain` or `severity` is
hit, only the remainder of that source's batch is abandoned: the records
of the batch already merged before the offending one stay in the mapping
(the dict is mutated in place), and the run continues with the remaining
sources. -/
theorem c2_amended_partial_batch_kept (start : DMap) (site : String) (good : List Rec)
    (bad : Rec) (rest : List Rec) (more : List (String × List Rec))
    (hg : ∀ r ∈ good, recOkB r = true)
    (hb : truthyO (recGet bad "domain") = false ∨ truthyO (recGet bad "severity") = false) :
    fetchLoop start ((site, good ++ bad :: rest) :: more)
      = fetchLoop (merge start good site).1 more := by
  show fetchLoop (merge start (good ++ bad :: rest) site).1 more = _
  rw [merge_append_bad site good bad rest hg hb start]

/-- C2 witness: the amended theorem applied to one source with a valid
record followed by a record missing `severity`. -/
theorem c2_witness :
    fetchLoop [] [("s1", [[("domain", JVal.s "a.com"), ("severity", JVal.s "suspend")],
        [("domain", JVal.s "b.com")]])]
      = fetchLoop (merge [] [[("domain", JVal.s "a.com"), ("severity", JVal.s "suspend")]]
          "s1").1 [] :=
  c2_amended_partial_batch_kept [] "s1"
    [[("domain", JVal.s "a.com"), ("severity", JVal.s "suspend")]]
    [("domain", JVal.s "b.com")] [] [] (by decide) (Or.inr (by decide))

/-- C3 counterexample: a record arriving with its own `private_comment`
("keep me") does not keep it — the aggregator overwrites it with
`from: site1`, contrary to the claim. -/
theorem c3_counterexample :
    (merge [] [[("domain", JVal.s "a.com"), ("severity", JVal.s "suspend"),
        ("private_comment", JVal.s "keep me")]] "site1").1
      = [("a.com", [("domain", JVal.s "a.com"), ("severity", JVal.s "suspend"),
          ("private_comment", JVal.s "from: site1")])] := by
  rfl

/-- C3 (amended): for every record merged under a non-empty site
identifier, `private_comment` is unconditionally set to
`from: <site_identifier>`, overwriting any private comment the record
arrived with. -/
theorem c3_amended_private_comment_overwritten (old : DMap) (item : Rec) (origin d : String)
    (hdom : recGet item "domain" = some (JVal.s d)) (hdne : (d == "") = false)
    (hsev : truthyO (recGet item "severity") = true)
    (hw : d.data.contains (Char.ofNat 42) = false)
    (ho : (origin == "") = false) :
    mapGet (merge old [item] origin).1 d
      = some (recSet item "private_comment" (JVal.s ("from: " ++ origin))) := by
  rw [merge_cons_ok old item [] origin d hdom hdne hsev, if_neg (by simpa using hw)]
  show mapGet (mapInsert old d (stamp origin item)) d = _
  rw [mapGet_insert_self]
  simp only [stamp, ho, Bool.false_eq_true, if_false]

/-- C3 witness: the amended theorem applied to a record that arrives with
its own private comment. -/
theorem c3_witness :
    mapGet (merge [] [[("domain", JVal.s "a.com"), ("severity", JVal.s "suspend"),
        ("private_comment", JVal.s "keep me")]] "site1").1 "a.com"
      = some (recSet [("domain", JVal.s "a.com"), ("severity", JVal.s "suspend"),
          ("private_comment", JVal.s "keep me")] "private_comment"
          (JVal.s "from: site1")) :=
  c3_amended_private_comment_overwritten []
    [("domain", JVal.s "a.com"), ("severity", JVal.s "suspend"),
      ("private_comment", JVal.s "keep me")] "site1" "a.com"
    (by rfl) (by rfl) (by rfl) (by decide) (by rfl)

/-- C4 counterexample: an entry supplying `reject_media = false` (boolean)
with severity `suspend` is serialized with the derived default `"true"` in
the `reject_media` column, not the supplied false — Python's `or` treats
the explicit boolean false as absent. -/
theorem c4_counterexample :
    dump_csv [("a.com", [("domain", JVal.s "a.com"), ("severity", JVal.s "suspend"),
        ("reject_media", JVal.b false)])] []
      = Except.ok [["a.com", "suspend", "true", "true", "\"\"", "false"]] := by
  rfl

/-- C4 (amended): the `reject_media` / `reject_report` columns carry the
derived default (`"true"` iff the resolved severity equals `"suspend"`)
whenever the field is absent OR falsy (empty string or boolean false); a
supplied truthy string value is emitted verbatim.  (A supplied boolean
true is not emitted at all: serialization fails, see C10.) -/
theorem c4_amended_falsy_fields_defaulted (site : String) (data : Rec) (row : List String)
    (h : buildRow site data = Except.ok row) :
    ((recGet data "reject_media" = none ∨ recGet data "reject_media" = some (JVal.s "")
        ∨ recGet data "reject_media" = some (JVal.b false)) →
      row[2]? = some (flagOf data)) ∧
    (∀ v, recGet data "reject_media" = some (JVal.s v) → (v == "") = false →
      row[2]? = some v) ∧
    ((recGet data "reject_report" = none ∨ recGet data "reject_report" = some (JVal.s "")
        ∨ recGet data "reject_report" = some (JVal.b false)) →
      row[3]? = some (flagOf data)) ∧
    (∀ v, recGet data "reject_report" = some (JVal.s v) → (v == "") = false →
      row[3]? = some v) := by
  obtain ⟨v1, v2, v3, c, h1, h2, h3, hc, hrow⟩ := buildRow_ok site data row h
  subst hrow
  refine ⟨?_, ?_, ?_, ?_⟩
  · intro hcase
    have hpy : pyOr (recGet data "reject_media") (JVal.s (flagOf data))
        = JVal.s (flagOf data) := by
      rcases hcase with hh | hh | hh <;> rw [hh] <;> rfl
    rw [hpy] at h2
    injection h2 with hv
    rw [hv]
    rfl
  · intro v hv hvne
    have hpy : pyOr (recGet data "reject_media") (JVal.s (flagOf data)) = JVal.s v := by
      rw [hv, pyOr]
      simp [JVal.truthy, hvne]
    rw [hpy] at h2
    injection h2 with hv2
    rw [hv2]
    rfl
  · intro hcase
    have hpy : pyOr (recGet data "reject_report") (JVal.s (flagOf data))
        = JVal.s (flagOf data) := by
      rcases hcase with hh | hh | hh <;> rw [hh] <;> rfl
    rw [hpy] at h3
    injection h3 with hv
    rw [hv]
    rfl
  · intro v hv hvne
    have hpy : pyOr (recGet data "reject_report") (JVal.s (flagOf data)) = JVal.s v := by
      rw [hv, pyOr]
      simp [JVal.truthy, hvne]
    rw [hpy] at h3
    injection h3 with hv2
    rw [hv2]
    rfl

/-- C4 witness: the amended theorem applied to an entry with both filter
fields absent. -/
theorem c4_witness :
    ((recGet ([] : Rec) "reject_media" = none
        ∨ recGet ([] : Rec) "reject_media" = some (JVal.s "")
        ∨ recGet ([] : Rec) "reject_media" = some (JVal.b false)) →
      (["a.com", "silence", "false", "false", "\"\"", "false"] : List String)[2]?
        = some (flagOf ([] : Rec))) ∧
    (∀ v, recGet ([] : Rec) "reject_media" = some (JVal.s v) → (v == "") = false →
      (["a.com", "silence", "false", "false", "\"\"", "false"] : List String)[2]? = some v) ∧
    ((recGet ([] : Rec) "reject_report" = none
        ∨ recGet ([] : Rec) "reject_report" = some (JVal.s "")
        ∨ recGet ([] : Rec) "reject_report" = some (JVal.b false)) →
      (["a.com", "silence", "false", "false", "\"\"", "false"] : List String)[3]?
        = some (flagOf ([] : Rec))) ∧
    (∀ v, recGet ([] : Rec) "reject_report" = some (JVal.s v) → (v == "") = false →
      (["a.com", "silence", "false", "false", "\"\"", "false"] : List String)[3]? = some v) :=
  c4_amended_falsy_fields_defaulted "a.com" [] _ (by rfl)

/-- C5 (confirmed): for sequences of sources whose records all pass the
integrity check, the aggregated mapping holds, for each wildcard-free
domain key, exactly the last record observed in source-then-record order
(with its provenance stamp); earlier records for the same domain are
gone. -/
theorem c5_last_write_wins (sites : List (String × List Rec)) (d : String)
    (hok : ∀ p ∈ sites, ∀ r ∈ p.2, recOkB r = true)
    (hd : d.data.contains (Char.ofNat 42) = false) :
    mapGet (fetch sites) d = (lastFor d sites).map (fun p => stamp p.1 p.2) := by
  show mapGet (fetchLoop [] sites) d = _
  rw [fetchLoop_get d hd sites [] hok]
  cases lastFor d sites <;> rfl

/-- C5 witness: two sources both blocking `a.com`; the mapping holds the
second source's record. -/
theorem c5_witness :
    mapGet (fetch [("s1", [[("domain", JVal.s "a.com"), ("severity", JVal.s "silence")]]),
        ("s2", [[("domain", JVal.s "a.com"), ("severity", JVal.s "suspend")]])]) "a.com"
      = (lastFor "a.com"
          [("s1", [[("domain", JVal.s "a.com"), ("severity", JVal.s "silence")]]),
           ("s2", [[("domain", JVal.s "a.com"), ("severity", JVal.s "suspend")]])]).map
          (fun p => stamp p.1 p.2) :=
  c5_last_write_wins _ "a.com" (by decide) (by decide)

/-- C6 (confirmed): no key of the aggregated mapping ever contains the
wildcard character `*` (code point 42), for every sequence of sources. -/
theorem c6_no_wildcard_keys (sites : List (String × List Rec)) :
    (mapKeys (fetch sites)).all (fun k => !(k.data.contains (Char.ofNat 42))) = true := by
  rw [List.all_eq_true]
  intro k hk
  have hfree := fetchLoop_keys_star_free sites []
    (by intro kk hkk; simp [mapKeys] at hkk) k hk
  simpa using hfree

/-- C7 (confirmed): suffix coverage is symmetric — a local `example.com`
covers a remote `sub.example.com`, and a local `sub.example.com` covers a
remote `example.com`; both reconciliations yield an empty diff. -/
theorem c7_suffix_coverage_symmetric (e e' : Rec) :
    compare [("example.com", e)] [("sub.example.com", e')] [] = [] ∧
    compare [("sub.example.com", e)] [("example.com", e')] [] = [] :=
  ⟨rfl, rfl⟩

/-- C8 (confirmed): no key of the allow-list is ever returned by
reconciliation, whatever the local mapping; and allow-list membership is
exact string equality — a remote `sub.example.com` is not excluded by an
allow-listed `example.com` (it is returned in the diff). -/
theorem c8_allow_exact_exclusion (mine theirs : DMap) (allow : List String) (k : String)
    (e : Rec) (hk : allow.contains k = true) :
    mapGet (compare mine theirs allow) k = none ∧
    mapGet (compare [] [("sub.example.com", e)] ["example.com"]) "sub.example.com"
      = some e := by
  constructor
  · exact compareLoop_get_blocked mine allow k (Or.inl hk) theirs []
  · rfl

/-- C8 witness: the theorem applied to an allow-listed `x.com`. -/
theorem c8_witness :
    mapGet (compare [] [("x.com", [])] ["x.com"]) "x.com" = none ∧
    mapGet (compare [] [("sub.example.com", [])] ["example.com"]) "sub.example.com"
      = some [] :=
  c8_allow_exact_exclusion [] [("x.com", [])] ["x.com"] "x.com" [] (by decide)

/-- C9 (confirmed): on success the serializer's data rows are sorted by
domain key in ascending lexical (code-point) order, contain no
allow-listed domain, and carry the double-quoted comment with every
embedded double or single quote preceded by a backslash (`escapeQuotes`
embeds the source's `re.sub("([\"'])", r"\\\1", ...)`); concretely, the
backslash (92) is inserted before a double quote (34) and before a single
quote (39). -/
theorem c9_sorted_filtered_escaped (sites_data : DMap) (allow : List String)
    (rows : List (List String)) (h : dump_csv sites_data allow = Except.ok rows) :
    List.Sorted strLe (rows.map (fun r => r.headD "")) ∧
    (∀ r ∈ rows, allow.contains (r.headD "") = false) ∧
    (∀ r ∈ rows, ∃ site data c, (site, data) ∈ sites_data ∧ r.headD "" = site ∧
      pyOr (recGet data "comment") (JVal.s "") = JVal.s c ∧
      r[4]? = some ("\"" ++ escapeQuotes c ++ "\"")) ∧
    escapeQuotes "hi\"x" = "hi\\\"x" ∧
    (escapeQuotes (String.mk [Char.ofNat 39])).data = [Char.ofNat 92, Char.ofNat 39] := by
  replace h : dumpLoop allow (sortItems sites_data) = Except.ok rows := h
  refine ⟨?_, ?_, ?_, by rfl, by rfl⟩
  · rw [dumpLoop_ok_heads allow (sortItems sites_data) rows h]
    have hs := sortItems_sorted sites_data
    have hp := List.Pairwise.filter (fun p => !(allow.contains p.1)) hs
    exact List.pairwise_map.mpr hp
  · intro r hr
    obtain ⟨site, data, hmem, hs2, hb⟩ := dumpLoop_ok_mem allow _ rows h r hr
    rw [buildRow_head site data r hb]
    exact hs2
  · intro r hr
    obtain ⟨site, data, hmem, hs2, hb⟩ := dumpLoop_ok_mem allow _ rows h r hr
    obtain ⟨v1, v2, v3, c, _, _, _, hc, hrow⟩ := buildRow_ok site data r hb
    refine ⟨site, data, c, sortItems_mem sites_data (site, data) hmem,
      buildRow_head site data r hb, hc, ?_⟩
    rw [hrow]
    rfl

/-- C9 witness: the theorem applied to a two-entry mapping with an
escaped comment and an allow-listed third domain. -/
theorem c9_witness :
    List.Sorted strLe (([["a.com", "silence", "false", "false", "\"hi\\\"x\"", "false"],
        ["b.com", "silence", "false", "false", "\"\"", "false"]].map
          (fun r => r.headD ""))) ∧
    (∀ r ∈ [["a.com", "silence", "false", "false", "\"hi\\\"x\"", "false"],
        ["b.com", "silence", "false", "false", "\"\"", "false"]],
      (["c.com"] : List String).contains (r.headD "") = false) ∧
    (∀ r ∈ [["a.com", "silence", "false", "false", "\"hi\\\"x\"", "false"],
        ["b.com", "silence", "false", "false", "\"\"", "false"]],
      ∃ site data c,
        (site, data) ∈ [("b.com", ([] : Rec)), ("a.com", [("comment", JVal.s "hi\"x")])] ∧
        r.headD "" = site ∧
        pyOr (recGet data "comment") (JVal.s "") = JVal.s c ∧
        r[4]? = some ("\"" ++ escapeQuotes c ++ "\"")) ∧
    escapeQuotes "hi\"x" = "hi\\\"x" ∧
    (escapeQuotes (String.mk [Char.ofNat 39])).data = [Char.ofNat 92, Char.ofNat 39] :=
  c9_sorted_filtered_escaped [("b.com", []), ("a.com", [("comment", JVal.s "hi\"x")])]
    ["c.com"]
    [["a.com", "silence", "false", "false", "\"hi\\\"x\"", "false"],
     ["b.com", "silence", "false", "false", "\"\"", "false"]] (by rfl)

/-- C10 (confirmed): an entry carrying `reject_media` with the boolean
value true makes serialization fail with a type error at the row join —
the raw boolean is placed in the row unconverted and `",".join` rejects
it — instead of producing a CSV row. -/
theorem c10_bool_filter_type_error :
    ∃ msg, dump_csv [("a.com", [("domain", JVal.s "a.com"), ("severity", JVal.s "suspend"),
        ("reject_media", JVal.b true)])] [] = Except.error msg :=
  ⟨"TypeError: sequence item: expected str instance, bool found", rfl⟩

end BlockSync
